import Mathlib

/-!
Verification of the graph message-passing embedding engine of the `cocoa`
repository (`src/model/graph_embedder.py`) against its natural-language
specification.  The forward computation is shallowly embedded over lists of
rationals: a vector is a `List ℚ`, a matrix a list of rows, a batched rank-3
tensor a list of matrices.  Learned parameters (embedding tables, affine
projection weights) are explicit fields of the embedded `GraphEmbedder`; the
hyperbolic-tangent squashing is an abstract scalar function field, since every
verified property is independent of the particular nonlinearity.
-/

namespace Cocoa

abbrev Vec := List ℚ
abbrev Mat := List Vec
abbrev Tensor3 := List Mat

/-- Metadata object handed to the config constructor
(`graph_metadata` in `GraphEmbedderConfig.__init__`). -/
structure GraphMetadata where
  relation_map_size : Nat
  utterance_size : Nat
  entity_cache_size : Nat
  feat_size : Nat
  entity_map_size : Nat
  PAD_PATH_ID : Nat
  NODE_PAD : Nat
  deriving Repr, DecidableEq

/-- The fields stored by a successfully constructed `GraphEmbedderConfig`.
`num_entities` and `entity_embed_size` are `Option`s because the Python
constructor only assigns those attributes when `use_entity_embedding` is
true (and `entity_embed_size` itself defaults to `None`). -/
structure GraphEmbedderConfig where
  node_embed_size : Nat
  num_edge_labels : Nat
  edge_embed_size : Nat
  utterance_size : Nat
  entity_cache_size : Nat
  feat_size : Nat
  mp_iters : Nat
  message_combiner : String
  context_size : Nat
  use_entity_embedding : Bool
  num_entities : Option Nat
  entity_embed_size : Option Nat
  batch_size : Nat
  pad_path_id : Nat
  node_pad : Nat
  deriving Repr, DecidableEq

namespace GraphEmbedderConfig

/-- Embedding of `GraphEmbedderConfig.__init__`.  A `ValueError` raised by the
Python constructor is modelled as `Except.error`; in that case no object is
produced at all, matching the fact that a raising `__init__` yields no value.
Arguments appear in the Python parameter order. -/
def init (node_embed_size edge_embed_size : Nat) (graph_metadata : GraphMetadata)
    (entity_embed_size : Option Nat) (use_entity_embedding : Bool)
    (mp_iters : Nat) (message_combiner : String) (batch_size : Nat) :
    Except String GraphEmbedderConfig :=
  if message_combiner = "concat" then
    Except.ok
      { node_embed_size := node_embed_size
        num_edge_labels := graph_metadata.relation_map_size
        edge_embed_size := edge_embed_size
        utterance_size := graph_metadata.utterance_size
        entity_cache_size := graph_metadata.entity_cache_size
        feat_size := graph_metadata.feat_size
        mp_iters := mp_iters
        message_combiner := message_combiner
        context_size := node_embed_size * (mp_iters + 1)
        use_entity_embedding := use_entity_embedding
        num_entities := if use_entity_embedding then some graph_metadata.entity_map_size else none
        entity_embed_size := if use_entity_embedding then entity_embed_size else none
        batch_size := batch_size
        pad_path_id := graph_metadata.PAD_PATH_ID
        node_pad := graph_metadata.NODE_PAD }
  else if message_combiner = "sum" then
    Except.ok
      { node_embed_size := node_embed_size
        num_edge_labels := graph_metadata.relation_map_size
        edge_embed_size := edge_embed_size
        utterance_size := graph_metadata.utterance_size
        entity_cache_size := graph_metadata.entity_cache_size
        feat_size := graph_metadata.feat_size
        mp_iters := mp_iters
        message_combiner := message_combiner
        context_size := node_embed_size
        use_entity_embedding := use_entity_embedding
        num_entities := if use_entity_embedding then some graph_metadata.entity_map_size else none
        entity_embed_size := if use_entity_embedding then entity_embed_size else none
        batch_size := batch_size
        pad_path_id := graph_metadata.PAD_PATH_ID
        node_pad := graph_metadata.NODE_PAD }
  else
    Except.error "Unknown message combiner"

end GraphEmbedderConfig

/-! ### Tensor operations -/

def vecAdd (x y : Vec) : Vec := List.zipWith (· + ·) x y

def vecScale (a : ℚ) (v : Vec) : Vec := v.map (fun x => a * x)

def dot (x y : Vec) : ℚ := (List.zipWith (· * ·) x y).sum

/-- One learned affine projection `W x + b` applied to a feature vector. -/
def affine (W : Mat) (b : Vec) (x : Vec) : Vec :=
  List.zipWith (fun row bi => dot row x + bi) W b

/-- `tf.concat` along the feature axis (axis 2) of two rank-3 tensors. -/
def tensorConcat2 (s t : Tensor3) : Tensor3 :=
  List.zipWith (fun m1 m2 => List.zipWith (fun v1 v2 => v1 ++ v2) m1 m2) s t

/-- `tf.concat(2, ts)`: feature-axis concatenation of a list of tensors. -/
def concatFeatures : List Tensor3 → Tensor3
  | [] => []
  | [t] => t
  | t :: ts => tensorConcat2 t (concatFeatures ts)

def tensorAdd (s t : Tensor3) : Tensor3 :=
  List.zipWith (fun m1 m2 => List.zipWith vecAdd m1 m2) s t

/-- `tf.add_n ts`: elementwise sum of a list of tensors. -/
def add_n : List Tensor3 → Tensor3
  | [] => []
  | [t] => t
  | t :: ts => tensorAdd t (add_n ts)

/-- Modelled from the spec: `batch_embedding_lookup` from `util` (imported by
`graph_embedder.py` but not under src/).  Spec 4.2: for each batch element
gather the rows of that element's table at the given indices. -/
def batch_embedding_lookup (table : Tensor3) (ids : List (List Nat)) : Tensor3 :=
  List.zipWith (fun tab row => row.map (fun i => tab.getD i [])) table ids

/-- `tf.nn.embedding_lookup` with a shared (non-batched) table applied to a
rank-2 index tensor. -/
def embedding_lookup2 (table : Mat) (ids : List (List Nat)) : Tensor3 :=
  ids.map (fun row => row.map (fun i => table.getD i []))

/-- Modelled from the spec: `batch_linear` from `util` (imported by
`graph_embedder.py` but not under src/).  Spec 4.2: concatenate the inputs
along the feature axis and apply a single learned affine projection with bias,
shared across node slots and the batch.  The learned parameters are explicit
arguments. -/
def batch_linear (W : Mat) (b : Vec) (inputs : List Tensor3) : Tensor3 :=
  (concatFeatures inputs).map (fun m => m.map (fun v => affine W b v))

/-- Sum of a list of feature vectors (`tf.reduce_sum` over the neighbor axis);
the feature dimension `d` gives the shape of the empty sum. -/
def sumVecs (d : Nat) (vs : List Vec) : Vec :=
  vs.foldr vecAdd (List.replicate d 0)

/-- Broadcast multiply of a rank-3 tensor by the float cast of a boolean node
mask (`context * tf.to_float(tf.expand_dims(mask, 2))`). -/
def applyMask (context : Tensor3) (mask : List (List Bool)) : Tensor3 :=
  List.zipWith
    (fun m mrow => List.zipWith (fun v bb => vecScale (if bb then 1 else 0) v) m mrow)
    context mask

/-! ### The embedded GraphEmbedder -/

/-- The learned parameters of `GraphEmbedder` (spec 9: an explicit
parameter-holder object replacing graph-construction-time variable scopes).
`tanh` is the bounded squashing nonlinearity, kept abstract because every
verified property holds for an arbitrary scalar function. -/
structure GraphEmbedder where
  config : GraphEmbedderConfig
  edge_embedding : Mat
  entity_embedding : Mat
  init_W : Mat
  init_b : Vec
  path_W : Mat
  path_b : Vec
  tanh : ℚ → ℚ

/-- The placeholder tuple `self.input_data` fed to one forward call.
A path is a triple `(node_id, edge_label, node_id)`. -/
structure BatchInput where
  node_ids : List (List Nat)
  mask : List (List Bool)
  entity_ids : List (List Nat)
  paths : List (List (Nat × Nat × Nat))
  node_paths : List (List (List Nat))
  node_feats : Tensor3

/-- `GraphEmbedder.embed_path`: edge-label lookup on field 1, target-node
gather on field 2, concat, affine projection, tanh squashing. -/
def GraphEmbedder.embed_path (g : GraphEmbedder) (node_embedding : Tensor3)
    (edge_embedding : Mat) (paths : List (List (Nat × Nat × Nat))) : Tensor3 :=
  let edge_embeds := embedding_lookup2 edge_embedding (paths.map (fun ps => ps.map (fun p => p.2.1)))
  let node_embeds := batch_embedding_lookup node_embedding (paths.map (fun ps => ps.map (fun p => p.2.2)))
  (batch_linear g.path_W g.path_b [edge_embeds, node_embeds]).map
    (fun m => m.map (fun v => v.map g.tanh))

/-- `GraphEmbedder.pass_message`: gather neighboring path embeddings, zero the
slots whose neighbor-path index equals `padded_path` (the float mask
`tf.to_float(tf.not_equal(neighbors, padded_path))`), and sum over the
neighbor axis.  The feature size is read off the static shape of
`path_embeds`, as in the source. -/
def pass_message (path_embeds : Tensor3) (neighbors : List (List (List Nat)))
    (padded_path : Nat) : Tensor3 :=
  let path_embed_size := ((path_embeds.headD []).headD []).length
  List.zipWith
    (fun pe nodeNbrs =>
      nodeNbrs.map (fun ns =>
        sumVecs path_embed_size
          (ns.map (fun i =>
            vecScale (if i = padded_path then 0 else 1)
              (pe.getD i (List.replicate path_embed_size 0))))))
    path_embeds neighbors

/-- The `InitNodeEmbedding` block of `get_context`: gather utterance vectors by
`node_ids` (plus the entity embedding when enabled), concatenate with the node
features and project to `node_embed_size`. -/
def GraphEmbedder.init_node_embed (g : GraphEmbedder) (utterances : Tensor3)
    (inp : BatchInput) : Tensor3 :=
  if g.config.use_entity_embedding then
    batch_linear g.init_W g.init_b
      [embedding_lookup2 g.entity_embedding inp.entity_ids,
        batch_embedding_lookup utterances inp.node_ids,
        inp.node_feats]
  else
    batch_linear g.init_W g.init_b
      [batch_embedding_lookup utterances inp.node_ids, inp.node_feats]

/-- The body `mp` of the scan in `get_context`: one message-passing step. -/
def GraphEmbedder.mp (g : GraphEmbedder) (inp : BatchInput) (curr : Tensor3) : Tensor3 :=
  pass_message (g.embed_path curr g.edge_embedding inp.paths) inp.node_paths g.config.pad_path_id

/-- The `tf.scan` over `tf.range(0, mp_iters)`: iterate `mp` and collect the
per-iteration node embeddings (iteration 0 excluded, as in the source). -/
def GraphEmbedder.mp_scan (g : GraphEmbedder) (inp : BatchInput) :
    Nat → Tensor3 → List Tensor3
  | 0, _ => []
  | k + 1, curr =>
    let next := g.mp inp curr
    next :: g.mp_scan inp k next

/-- `GraphEmbedder.get_context`: initial embedding, `mp_iters` message-passing
steps, combination of the iteration sequence (`concat` or `sum`, any other
combiner raising `ValueError` modelled as `Except.error`), and final masking.
Returns the context together with the pass-through mask. -/
def GraphEmbedder.get_context (g : GraphEmbedder) (utterances : Tensor3)
    (inp : BatchInput) : Except String (Tensor3 × List (List Bool)) :=
  let initial_node_embed := g.init_node_embed utterances inp
  let node_embeds := g.mp_scan inp g.config.mp_iters initial_node_embed
  if g.config.message_combiner = "concat" then
    Except.ok (applyMask (concatFeatures (initial_node_embed :: node_embeds)) inp.mask, inp.mask)
  else if g.config.message_combiner = "sum" then
    Except.ok (applyMask (add_n (initial_node_embed :: node_embeds)) inp.mask, inp.mask)
  else
    Except.error "Unknown message combining method"

/-! ### The utterance-cache update -/

/-- An all-zero tensor with the shape of `t` (the `tf.shape(curr_utterances)`
argument of `sparse_to_dense`). -/
def zerosLike (t : Tensor3) : Tensor3 :=
  t.map (fun m => m.map (fun v => v.map (fun _ => 0)))

/-- Assign scalar `x` at position `(b, n, u)`; an out-of-range coordinate
leaves the tensor unchanged. -/
def tensorSet (t : Tensor3) (b n u : Nat) (x : ℚ) : Tensor3 :=
  t.set b ((t.getD b []).set n (((t.getD b []).getD n []).set u x))

/-- Perform a sequence of indexed writes left to right. -/
def applyWrites (ws : List ((Nat × Nat × Nat) × ℚ)) (d : Tensor3) : Tensor3 :=
  ws.foldl (fun d iv => tensorSet d iv.1.1 iv.1.2.1 iv.1.2.2 iv.2) d

/-- `tf.sparse_to_dense(inds, shape, values, validate_indices=False)`: start
from an all-zero tensor of the given shape and assign each value at its index
in input order.  The kernel assigns (it does not accumulate), so when an index
is repeated the last value written survives. -/
def sparse_to_dense (inds : List (Nat × Nat × Nat)) (values : List ℚ)
    (shapeLike : Tensor3) : Tensor3 :=
  applyWrites (List.zip inds values) (zerosLike shapeLike)

/-- `GraphEmbedder.update_utterance`: build the flat
`(batch_id, node_id, utterance_dim)` index rows by the tile/reshape scheme of
the source (`batch_inds`, `node_inds`, `utterance_inds`), repeat the utterance
vector for each entity slot, densify with `sparse_to_dense`, and return the
sum with the current cache. -/
def GraphEmbedder.update_utterance (g : GraphEmbedder) (entity_indices : List (List Nat))
    (utterance : Mat) (curr_utterances : Tensor3) : Tensor3 :=
  let B := g.config.batch_size
  let E := g.config.entity_cache_size
  let U := g.config.utterance_size
  let batch_inds := (List.range B).flatMap (fun b => List.replicate (E * U) b)
  let node_inds := entity_indices.flatten.flatMap (fun r => List.replicate U r)
  let utterance_inds := (List.replicate (E * B) (List.range U)).flatten
  let inds := List.zip batch_inds (List.zip node_inds utterance_inds)
  let vals := utterance.flatMap (fun row => (List.replicate E row).flatten)
  let new_utterance := sparse_to_dense inds vals curr_utterances
  tensorAdd curr_utterances new_utterance

/-- The write sequence `zip inds vals` of `update_utterance`, expressed
structurally batch by batch (first batch index `b0`): for the batch at offset
`j` with entity row `r` and utterance row `urow`, each entity slot value
`val ∈ r` contributes the writes `((b0+j, val, u), urow[u])` for `u` below
`urow.length`, in that order.  `update_utterance_writes_eq` proves the two
forms equal under the placeholder shape contract. -/
def scatterWrites : Nat → List (List Nat) → Mat → List ((Nat × Nat × Nat) × ℚ)
  | _, [], _ => []
  | _, _ :: _, [] => []
  | b0, r :: rest, urow :: urest =>
    (r.flatMap (fun val =>
      (List.zip (List.range urow.length) urow).map (fun p => ((b0, (val, p.1)), p.2))))
      ++ scatterWrites (b0 + 1) rest urest

/-- The cache row at batch `b`, node slot `n`. -/
def rowOf (t : Tensor3) (b n : Nat) : Vec := (t.getD b []).getD n []

/-- The scalar entry at `(b, n, u)`. -/
def getEntry (t : Tensor3) (b n u : Nat) : ℚ := (rowOf t b n).getD u 0

/-- A fixed sample metadata record used by concrete witnesses. -/
def mdW : GraphMetadata :=
  { relation_map_size := 3
    utterance_size := 1
    entity_cache_size := 2
    feat_size := 1
    entity_map_size := 4
    PAD_PATH_ID := 0
    NODE_PAD := 0 }

/-- A sample config, equal to the result of
`GraphEmbedderConfig.init 1 1 mdW none false 1 "concat" 1`. -/
def cW : GraphEmbedderConfig :=
  { node_embed_size := 1, num_edge_labels := 3, edge_embed_size := 1
    utterance_size := 1, entity_cache_size := 2, feat_size := 1
    mp_iters := 1, message_combiner := "concat", context_size := 2
    use_entity_embedding := false, num_entities := none, entity_embed_size := none
    batch_size := 1, pad_path_id := 0, node_pad := 0 }

/-- Variant of `cW` with the sum combiner and zero message-passing rounds. -/
def cW0 : GraphEmbedderConfig :=
  { cW with mp_iters := 0, message_combiner := "sum", context_size := 1 }

/-- A concrete embedder over `cW` used by witnesses. -/
def gW : GraphEmbedder :=
  { config := cW
    edge_embedding := [[2], [3], [4]]
    entity_embedding := []
    init_W := [[1, 1]], init_b := [0]
    path_W := [[1, 1]], path_b := [0]
    tanh := fun x => x }

/-- The embedder `gW` reconfigured with `cW0`. -/
def gW0 : GraphEmbedder := { gW with config := cW0 }

def uttW : Tensor3 := [[[1]]]

def inpW : BatchInput :=
  { node_ids := [[0, 0]]
    mask := [[true, false]]
    entity_ids := [[0, 0]]
    paths := [[(0, 0, 0)]]
    node_paths := [[[0], [0]]]
    node_feats := [[[1], [1]]] }

/-- `inpW` with the unused first field of the single path triple changed. -/
def inpW2 : BatchInput := { inpW with paths := [[(5, 0, 0)]] }

def ctxW : Tensor3 := ((gW.get_context uttW inpW).toOption.getD ([], [])).1

def mW : List (List Bool) := ((gW.get_context uttW inpW).toOption.getD ([], [])).2

/-! ### Helper lemmas -/

theorem zipWith_getD_of_lt {α β γ : Type} (f : α → β → γ) (xs : List α) (ys : List β)
    (i : Nat) (dx : α) (dy : β) (dz : γ) (hx : i < xs.length) (hy : i < ys.length) :
    (List.zipWith f xs ys).getD i dz = f (xs.getD i dx) (ys.getD i dy) := by
  have hz : i < (List.zipWith f xs ys).length := by
    rw [List.length_zipWith]; omega
  rw [List.getD_eq_getElem _ _ hz, List.getD_eq_getElem _ _ hx, List.getD_eq_getElem _ _ hy,
    List.getElem_zipWith]

theorem map_getD_of_lt {α β : Type} (f : α → β) (xs : List α) (i : Nat) (dx : α) (dz : β)
    (h : i < xs.length) : (xs.map f).getD i dz = f (xs.getD i dx) := by
  rw [List.getD_eq_getElem _ _ (by simpa using h), List.getD_eq_getElem _ _ h, List.getElem_map]

theorem vecScale_zero_mem (v : Vec) : ∀ x ∈ vecScale 0 v, x = 0 := by
  intro x hx
  rcases List.mem_map.mp hx with ⟨a, _, rfl⟩
  simp

theorem vecAdd_zero_of_zero (v : Vec) (hz : ∀ x ∈ v, x = 0) :
    vecAdd v (List.replicate v.length 0) = List.replicate v.length 0 := by
  induction v with
  | nil => rfl
  | cons a v ih =>
    have ha : a = 0 := hz a (by simp)
    have ih' := ih (fun x hx => hz x (by simp [hx]))
    simp only [List.length_cons, List.replicate_succ, vecAdd, List.zipWith_cons_cons] at *
    rw [ha, ih']
    simp

theorem sumVecs_eq_zero (d : Nat) (vs : List Vec)
    (h : ∀ v ∈ vs, v.length = d ∧ ∀ x ∈ v, x = 0) :
    sumVecs d vs = List.replicate d 0 := by
  induction vs with
  | nil => rfl
  | cons v vs ih =>
    have hv := h v (by simp)
    have ih' := ih (fun w hw => h w (by simp [hw]))
    show vecAdd v (sumVecs d vs) = List.replicate d 0
    rw [ih', ← hv.1]
    exact vecAdd_zero_of_zero v hv.2

theorem maskRow_false_zero (m : Mat) (mrow : List Bool) (n : Nat)
    (hmask : mrow.getD n true = false) :
    ∀ x ∈ ((List.zipWith (fun v bb => vecScale (if bb then 1 else 0) v) m mrow).getD n []),
      x = 0 := by
  induction m generalizing mrow n with
  | nil => intro x hx; simp at hx
  | cons v m ih =>
    intro x hx
    cases mrow with
    | nil => simp at hmask
    | cons bb mrow =>
      cases n with
      | zero =>
        rw [List.getD_cons_zero] at hmask
        subst hmask
        rw [List.zipWith_cons_cons, List.getD_cons_zero] at hx
        exact vecScale_zero_mem v x (by simpa using hx)
      | succ n =>
        rw [List.getD_cons_succ] at hmask
        rw [List.zipWith_cons_cons, List.getD_cons_succ] at hx
        exact ih mrow n hmask x hx

theorem applyMask_false_zero (c : Tensor3) (mask : List (List Bool)) (b n : Nat)
    (hmask : ((mask.getD b []).getD n true) = false) :
    ∀ x ∈ (((applyMask c mask).getD b []).getD n []), x = 0 := by
  induction c generalizing mask b with
  | nil => intro x hx; simp [applyMask] at hx
  | cons m c ih =>
    intro x hx
    cases mask with
    | nil => simp at hmask
    | cons mrow mask =>
      cases b with
      | zero =>
        rw [List.getD_cons_zero] at hmask
        unfold applyMask at hx
        rw [List.zipWith_cons_cons, List.getD_cons_zero] at hx
        exact maskRow_false_zero m mrow n hmask x hx
      | succ b =>
        rw [List.getD_cons_succ] at hmask
        unfold applyMask at hx
        rw [List.zipWith_cons_cons, List.getD_cons_succ] at hx
        exact ih mask b hmask x hx

theorem init_ok_combiner {nes ees : Nat} {md : GraphMetadata} {eesOpt : Option Nat}
    {uee : Bool} {mpi : Nat} {mc : String} {bs : Nat} {c : GraphEmbedderConfig}
    (h : GraphEmbedderConfig.init nes ees md eesOpt uee mpi mc bs = Except.ok c) :
    c.message_combiner = "concat" ∨ c.message_combiner = "sum" := by
  unfold GraphEmbedderConfig.init at h
  by_cases h1 : mc = "concat"
  · simp only [h1, if_pos] at h
    simp at h
    subst h
    exact Or.inl rfl
  · by_cases h2 : mc = "sum"
    · simp [h1, h2] at h
      subst h
      exact Or.inr rfl
    · simp [h1, h2] at h

theorem embed_path_proj (g : GraphEmbedder) (curr : Tensor3) (ee : Mat)
    (ps qs : List (List (Nat × Nat × Nat)))
    (h : ps.map (fun l => l.map (fun p => p.2)) = qs.map (fun l => l.map (fun p => p.2))) :
    g.embed_path curr ee ps = g.embed_path curr ee qs := by
  have h1 : ps.map (fun l => l.map (fun p => p.2.1)) =
      qs.map (fun l => l.map (fun p => p.2.1)) := by
    have h' := congrArg (fun x : List (List (Nat × Nat)) => x.map (fun l => l.map Prod.fst)) h
    simpa [List.map_map, Function.comp] using h'
  have h2 : ps.map (fun l => l.map (fun p => p.2.2)) =
      qs.map (fun l => l.map (fun p => p.2.2)) := by
    have h' := congrArg (fun x : List (List (Nat × Nat)) => x.map (fun l => l.map Prod.snd)) h
    simpa [List.map_map, Function.comp] using h'
  unfold GraphEmbedder.embed_path
  rw [h1, h2]

/-- C2: for every successfully constructed config, `context_size` is
`node_embed_size * (mp_iters + 1)` under the concat combiner and
`node_embed_size` under the sum combiner. -/
theorem context_size_formula
    (nes ees : Nat) (md : GraphMetadata) (eesOpt : Option Nat) (uee : Bool)
    (mpi : Nat) (mc : String) (bs : Nat) (c : GraphEmbedderConfig)
    (h : GraphEmbedderConfig.init nes ees md eesOpt uee mpi mc bs = Except.ok c) :
    (c.message_combiner = "concat" → c.context_size = nes * (mpi + 1)) ∧
    (c.message_combiner = "sum" → c.context_size = nes) := by
  unfold GraphEmbedderConfig.init at h
  by_cases h1 : mc = "concat"
  · simp [h1] at h
    subst h
    constructor
    · intro _; rfl
    · intro hsum; simp at hsum
  · by_cases h2 : mc = "sum"
    · simp [h1, h2] at h
      subst h
      constructor
      · intro hcat; simp at hcat
      · intro _; rfl
    · simp [h1, h2] at h

theorem context_size_formula_witness :
    (GraphEmbedderConfig.init 4 3 mdW none false 2 "concat" 1 =
      Except.ok
        { node_embed_size := 4, num_edge_labels := 3, edge_embed_size := 3
          utterance_size := 1, entity_cache_size := 2, feat_size := 1
          mp_iters := 2, message_combiner := "concat", context_size := 12
          use_entity_embedding := false, num_entities := none
          entity_embed_size := none, batch_size := 1
          pad_path_id := 0, node_pad := 0 }) ∧
    (12 = 4 * (2 + 1)) := by
  refine ⟨by rfl, ?_⟩
  have h := context_size_formula 4 3 mdW none false 2 "concat" 1 _ (by rfl)
  exact h.1 rfl

/-- C7: construction succeeds (produces a value at all) exactly when the
message combiner is the string concat or the string sum; every other value
yields an error and no partially constructed configuration. -/
theorem combiner_validated
    (nes ees : Nat) (md : GraphMetadata) (eesOpt : Option Nat) (uee : Bool)
    (mpi : Nat) (mc : String) (bs : Nat) :
    (∃ c, GraphEmbedderConfig.init nes ees md eesOpt uee mpi mc bs = Except.ok c) ↔
    (mc = "concat" ∨ mc = "sum") := by
  constructor
  · rintro ⟨c, hc⟩
    unfold GraphEmbedderConfig.init at hc
    by_cases h1 : mc = "concat"
    · exact Or.inl h1
    · by_cases h2 : mc = "sum"
      · exact Or.inr h2
      · simp [h1, h2] at hc
  · rintro (h | h) <;> subst h <;> exact ⟨_, rfl⟩

/-- C8 counterexample: constructing a config with `use_entity_embedding = true`
and `entity_embed_size` unset does NOT raise a configuration error; the
constructor succeeds and stores the unset value. -/
theorem entity_unset_constructs :
    (GraphEmbedderConfig.init 4 3 mdW none true 2 "concat" 1).isOk = true ∧
    (GraphEmbedderConfig.init 4 3 mdW none true 2 "concat" 1).toOption.map
        (fun c => c.entity_embed_size) = some none := by
  constructor <;> rfl

/-- C8 amended: with `use_entity_embedding = true` and `entity_embed_size`
unset, construction nevertheless succeeds whenever the message combiner is
valid; no entity-related validation happens at construction time. -/
theorem entity_unset_no_validation
    (nes ees : Nat) (md : GraphMetadata) (mpi : Nat) (mc : String) (bs : Nat)
    (hmc : mc = "concat" ∨ mc = "sum") :
    ∃ c, GraphEmbedderConfig.init nes ees md none true mpi mc bs = Except.ok c ∧
      c.use_entity_embedding = true ∧ c.entity_embed_size = none := by
  rcases hmc with h | h <;> subst h
  · exact ⟨_, rfl, rfl, rfl⟩
  · exact ⟨_, rfl, rfl, rfl⟩

theorem entity_unset_no_validation_witness :
    ∃ c, GraphEmbedderConfig.init 4 3 mdW none true 2 "sum" 1 = Except.ok c ∧
      c.use_entity_embedding = true ∧ c.entity_embed_size = none :=
  entity_unset_no_validation 4 3 mdW 2 "sum" 1 (Or.inr rfl)

/-- C4: in `pass_message`, a node slot whose every neighbor-path index equals
the padding path id receives the all-zero message: its new node embedding is
exactly the zero vector of the path-embedding feature size. -/
theorem pass_message_all_pad
    (path_embeds : Tensor3) (neighbors : List (List (List Nat))) (pad : Nat)
    (b n d : Nat) (hd : d = ((path_embeds.headD []).headD []).length)
    (hwf : ∀ m ∈ path_embeds, ∀ v ∈ m, v.length = d)
    (hb : b < path_embeds.length) (hbn : b < neighbors.length)
    (hn : n < (neighbors.getD b []).length)
    (hall : ∀ i ∈ (neighbors.getD b []).getD n [], i = pad) :
    ((pass_message path_embeds neighbors pad).getD b []).getD n [] =
      List.replicate d 0 := by
  simp only [pass_message]
  rw [← hd]
  rw [zipWith_getD_of_lt _ path_embeds neighbors b [] [] [] hb hbn]
  rw [map_getD_of_lt _ _ n [] [] hn]
  apply sumVecs_eq_zero
  intro v hv
  rcases List.mem_map.mp hv with ⟨i, hi, rfl⟩
  have hip : i = pad := hall i hi
  constructor
  · simp only [vecScale, List.length_map]
    by_cases hcase : i < (path_embeds.getD b []).length
    · have hmem : path_embeds.getD b [] ∈ path_embeds := by
        rw [List.getD_eq_getElem _ _ hb]
        exact List.getElem_mem _
      have hmem2 : (path_embeds.getD b []).getD i (List.replicate d 0) ∈
          path_embeds.getD b [] := by
        rw [List.getD_eq_getElem _ _ hcase]
        exact List.getElem_mem _
      exact hwf _ hmem _ hmem2
    · rw [List.getD_eq_default _ _ (by omega)]
      simp
  · rw [hip]
    simpa using vecScale_zero_mem
      ((path_embeds.getD b []).getD pad (List.replicate d 0))

theorem pass_message_all_pad_witness :
    ((pass_message [[[(1 : ℚ), 2], [3, 4]]] [[[0, 0], [1]]] 0).getD 0 []).getD 0 [] =
      List.replicate 2 0 :=
  pass_message_all_pad [[[(1 : ℚ), 2], [3, 4]]] [[[0, 0], [1]]] 0 0 0 2 (by rfl)
    (by decide) (by decide) (by decide) (by decide) (by decide)

/-- C1: whenever `get_context` returns a context, every row whose node-slot
mask entry is false consists entirely of zeros, for any `mp_iters` and either
message combiner (the returned context is the combined sequence multiplied by
the float cast of the mask). -/
theorem masked_rows_zero
    (g : GraphEmbedder) (utterances : Tensor3) (inp : BatchInput)
    (ctx : Tensor3) (m : List (List Bool)) (b n : Nat)
    (h : g.get_context utterances inp = Except.ok (ctx, m))
    (hmask : ((inp.mask.getD b []).getD n true) = false) :
    (ctx.getD b []).getD n [] =
      List.replicate ((ctx.getD b []).getD n []).length 0 := by
  apply List.eq_replicate_of_mem
  unfold GraphEmbedder.get_context at h
  by_cases h1 : g.config.message_combiner = "concat"
  · rw [if_pos h1] at h
    simp only [Except.ok.injEq, Prod.mk.injEq] at h
    obtain ⟨hctx, _⟩ := h
    subst hctx
    exact applyMask_false_zero _ inp.mask b n hmask
  · rw [if_neg h1] at h
    by_cases h2 : g.config.message_combiner = "sum"
    · rw [if_pos h2] at h
      simp only [Except.ok.injEq, Prod.mk.injEq] at h
      obtain ⟨hctx, _⟩ := h
      subst hctx
      exact applyMask_false_zero _ inp.mask b n hmask
    · rw [if_neg h2] at h
      simp at h

theorem masked_rows_zero_witness :
    (ctxW.getD 0 []).getD 1 [] = List.replicate ((ctxW.getD 0 []).getD 1 []).length 0 :=
  masked_rows_zero gW uttW inpW ctxW mW 0 1 (by rfl) (by rfl)

/-- C3: with zero message-passing iterations the returned context is exactly
the masked initializer output, for either valid combiner (the iteration
sequence has length one, so concat and sum both reduce to it). -/
theorem mp_iters_zero_context
    (g : GraphEmbedder) (utterances : Tensor3) (inp : BatchInput)
    (h0 : g.config.mp_iters = 0)
    (hmc : g.config.message_combiner = "concat" ∨ g.config.message_combiner = "sum") :
    g.get_context utterances inp =
      Except.ok (applyMask (g.init_node_embed utterances inp) inp.mask, inp.mask) := by
  unfold GraphEmbedder.get_context
  rw [h0]
  rcases hmc with h | h
  · rw [if_pos h]
    simp [GraphEmbedder.mp_scan, concatFeatures]
  · rw [if_neg (by rw [h]; decide), if_pos h]
    simp [GraphEmbedder.mp_scan, add_n]

theorem mp_iters_zero_context_witness :
    gW0.get_context uttW inpW =
      Except.ok (applyMask (gW0.init_node_embed uttW inpW) inpW.mask, inpW.mask) :=
  mp_iters_zero_context gW0 uttW inpW rfl (Or.inr rfl)

/-- C10: for any embedder whose config came out of a successful
`GraphEmbedderConfig.init`, the unknown-combiner error branch of
`get_context` is unreachable: `get_context` always returns a value. -/
theorem combiner_branch_unreachable
    (nes ees : Nat) (md : GraphMetadata) (eesOpt : Option Nat) (uee : Bool)
    (mpi : Nat) (mc : String) (bs : Nat) (c : GraphEmbedderConfig)
    (h : GraphEmbedderConfig.init nes ees md eesOpt uee mpi mc bs = Except.ok c)
    (g : GraphEmbedder) (hg : g.config = c) (utterances : Tensor3) (inp : BatchInput) :
    (g.get_context utterances inp).isOk = true := by
  have hmc := init_ok_combiner h
  rw [← hg] at hmc
  unfold GraphEmbedder.get_context
  rcases hmc with h2 | h2
  · rw [if_pos h2]
    rfl
  · rw [if_neg (by rw [h2]; decide), if_pos h2]
    rfl

theorem combiner_branch_unreachable_witness :
    (gW.get_context uttW inpW).isOk = true :=
  combiner_branch_unreachable 1 1 mdW none false 1 "concat" 1 cW (by rfl) gW rfl uttW inpW

/-- C9: the first field of a path triple is never read: for two inputs whose
path lists agree on the edge-label and target-node fields (and agree on every
other input tensor), `embed_path` produces identical path embeddings and
`get_context` produces identical contexts. -/
theorem path_first_field_unused
    (g : GraphEmbedder) (curr : Tensor3) (ee : Mat) (utterances : Tensor3)
    (inp inp' : BatchInput)
    (hproj : inp.paths.map (fun l => l.map (fun p => p.2)) =
      inp'.paths.map (fun l => l.map (fun p => p.2)))
    (hni : inp.node_ids = inp'.node_ids) (hmk : inp.mask = inp'.mask)
    (hei : inp.entity_ids = inp'.entity_ids)
    (hnp : inp.node_paths = inp'.node_paths) (hnf : inp.node_feats = inp'.node_feats) :
    g.embed_path curr ee inp.paths = g.embed_path curr ee inp'.paths ∧
    g.get_context utterances inp = g.get_context utterances inp' := by
  have hep : ∀ c2 ee2, g.embed_path c2 ee2 inp.paths = g.embed_path c2 ee2 inp'.paths :=
    fun c2 ee2 => embed_path_proj g c2 ee2 _ _ hproj
  refine ⟨hep curr ee, ?_⟩
  have hinit : g.init_node_embed utterances inp = g.init_node_embed utterances inp' := by
    unfold GraphEmbedder.init_node_embed
    rw [hni, hei, hnf]
  have hmp : ∀ c2, g.mp inp c2 = g.mp inp' c2 := by
    intro c2
    unfold GraphEmbedder.mp
    rw [hep, hnp]
  have hscan : ∀ k c2, g.mp_scan inp k c2 = g.mp_scan inp' k c2 := by
    intro k
    induction k with
    | zero => intro c2; rfl
    | succ k ih =>
      intro c2
      simp only [GraphEmbedder.mp_scan]
      rw [hmp, ih]
  simp only [GraphEmbedder.get_context]
  rw [hinit, hscan, hmk]

theorem path_first_field_unused_witness :
    gW.embed_path uttW gW.edge_embedding inpW.paths =
      gW.embed_path uttW gW.edge_embedding inpW2.paths ∧
    gW.get_context uttW inpW = gW.get_context uttW inpW2 :=
  path_first_field_unused gW uttW gW.edge_embedding uttW inpW inpW2
    (by rfl) rfl rfl rfl rfl rfl

/-! ### Lemmas on indexed writes -/

theorem getD_set_ne {α : Type} (l : List α) (i j : Nat) (a d : α) (h : i ≠ j) :
    (l.set i a).getD j d = l.getD j d := by
  rw [List.getD_eq_getElem?_getD, List.getD_eq_getElem?_getD, List.getElem?_set_ne h]

theorem getD_set_self_of_lt {α : Type} (l : List α) (i : Nat) (a d : α) (h : i < l.length) :
    (l.set i a).getD i d = a := by
  rw [List.getD_eq_getElem?_getD, List.getElem?_set_self', List.getElem?_eq_getElem h]
  rfl

theorem tensorSet_length (t : Tensor3) (b n u : Nat) (x : ℚ) :
    (tensorSet t b n u x).length = t.length := by
  simp [tensorSet]

theorem tensorSet_row_length (t : Tensor3) (b n u : Nat) (x : ℚ) (c : Nat) :
    ((tensorSet t b n u x).getD c []).length = (t.getD c []).length := by
  unfold tensorSet
  by_cases hb : c = b
  · subst hb
    by_cases hlt : c < t.length
    · rw [getD_set_self_of_lt _ _ _ _ hlt, List.length_set]
    · rw [List.set_eq_of_length_le (by omega)]
  · rw [getD_set_ne _ _ _ _ _ (Ne.symm hb)]

theorem tensorSet_vec_length (t : Tensor3) (b n u : Nat) (x : ℚ) (c m : Nat) :
    (rowOf (tensorSet t b n u x) c m).length = (rowOf t c m).length := by
  unfold rowOf tensorSet
  by_cases hb : c = b
  · subst hb
    by_cases hlt : c < t.length
    · rw [getD_set_self_of_lt _ _ _ _ hlt]
      by_cases hn : m = n
      · subst hn
        by_cases hnlt : m < (t.getD c []).length
        · rw [getD_set_self_of_lt _ _ _ _ hnlt, List.length_set]
        · rw [List.set_eq_of_length_le (by omega)]
      · rw [getD_set_ne _ _ _ _ _ (Ne.symm hn)]
    · rw [List.set_eq_of_length_le (by omega)]
  · rw [getD_set_ne _ _ _ _ _ (Ne.symm hb)]

theorem tensorSet_row_other (t : Tensor3) (b n u : Nat) (x : ℚ) (c m : Nat)
    (h : c ≠ b ∨ m ≠ n) :
    rowOf (tensorSet t b n u x) c m = rowOf t c m := by
  unfold rowOf tensorSet
  rcases h with h | h
  · rw [getD_set_ne _ _ _ _ _ (Ne.symm h)]
  · by_cases hb : c = b
    · subst hb
      by_cases hlt : c < t.length
      · rw [getD_set_self_of_lt _ _ _ _ hlt, getD_set_ne _ _ _ _ _ (Ne.symm h)]
      · rw [List.set_eq_of_length_le (by omega)]
    · rw [getD_set_ne _ _ _ _ _ (Ne.symm hb)]

theorem tensorSet_entry_same (t : Tensor3) (b n u : Nat) (x : ℚ)
    (hb : b < t.length) (hn : n < (t.getD b []).length) (hu : u < (rowOf t b n).length) :
    getEntry (tensorSet t b n u x) b n u = x := by
  unfold rowOf at hu
  unfold getEntry rowOf tensorSet
  rw [getD_set_self_of_lt _ _ _ _ hb, getD_set_self_of_lt _ _ _ _ hn,
    getD_set_self_of_lt _ _ _ _ hu]

theorem tensorSet_entry_other (t : Tensor3) (b n u : Nat) (x : ℚ) (c m w : Nat)
    (h : ¬(c = b ∧ m = n ∧ w = u)) :
    getEntry (tensorSet t b n u x) c m w = getEntry t c m w := by
  unfold getEntry
  by_cases hb : c = b
  · by_cases hn : m = n
    · have hu : w ≠ u := fun he => h ⟨hb, hn, he⟩
      subst hb; subst hn
      unfold rowOf tensorSet
      by_cases hlt : c < t.length
      · rw [getD_set_self_of_lt _ _ _ _ hlt]
        by_cases hnlt : m < (t.getD c []).length
        · rw [getD_set_self_of_lt _ _ _ _ hnlt, getD_set_ne _ _ _ _ _ (Ne.symm hu)]
        · rw [List.set_eq_of_length_le (by omega)]
      · rw [List.set_eq_of_length_le (by omega)]
    · rw [tensorSet_row_other t b n u x c m (Or.inr hn)]
  · rw [tensorSet_row_other t b n u x c m (Or.inl hb)]

theorem applyWrites_cons (w : (Nat × Nat × Nat) × ℚ) (ws : List ((Nat × Nat × Nat) × ℚ))
    (d : Tensor3) :
    applyWrites (w :: ws) d = applyWrites ws (tensorSet d w.1.1 w.1.2.1 w.1.2.2 w.2) := rfl

theorem applyWrites_length (ws : List ((Nat × Nat × Nat) × ℚ)) (d : Tensor3) :
    (applyWrites ws d).length = d.length := by
  induction ws generalizing d with
  | nil => rfl
  | cons w ws ih => rw [applyWrites_cons, ih, tensorSet_length]

theorem applyWrites_row_length (ws : List ((Nat × Nat × Nat) × ℚ)) (d : Tensor3) (c : Nat) :
    ((applyWrites ws d).getD c []).length = (d.getD c []).length := by
  induction ws generalizing d with
  | nil => rfl
  | cons w ws ih => rw [applyWrites_cons, ih, tensorSet_row_length]

theorem applyWrites_vec_length (ws : List ((Nat × Nat × Nat) × ℚ)) (d : Tensor3) (c m : Nat) :
    (rowOf (applyWrites ws d) c m).length = (rowOf d c m).length := by
  induction ws generalizing d with
  | nil => rfl
  | cons w ws ih => rw [applyWrites_cons, ih, tensorSet_vec_length]

theorem applyWrites_row_untouched (ws : List ((Nat × Nat × Nat) × ℚ)) (d : Tensor3)
    (b n : Nat) (h : ∀ w ∈ ws, w.1.1 ≠ b ∨ w.1.2.1 ≠ n) :
    rowOf (applyWrites ws d) b n = rowOf d b n := by
  induction ws generalizing d with
  | nil => rfl
  | cons w ws ih =>
    rw [applyWrites_cons, ih _ (fun w2 hw2 => h w2 (by simp [hw2]))]
    exact tensorSet_row_other d _ _ _ _ b n ((h w (by simp)).imp Ne.symm Ne.symm)

theorem applyWrites_entry_untouched (ws : List ((Nat × Nat × Nat) × ℚ)) (d : Tensor3)
    (b n u : Nat) (h : ∀ w ∈ ws, w.1 ≠ (b, n, u)) :
    getEntry (applyWrites ws d) b n u = getEntry d b n u := by
  induction ws generalizing d with
  | nil => rfl
  | cons w ws ih =>
    rw [applyWrites_cons, ih _ (fun w2 hw2 => h w2 (by simp [hw2]))]
    apply tensorSet_entry_other
    rintro ⟨h1, h2, h3⟩
    exact h w (by simp) (by rw [Prod.ext_iff, Prod.ext_iff]; exact ⟨h1.symm, h2.symm, h3.symm⟩)

theorem applyWrites_entry_last (ws : List ((Nat × Nat × Nat) × ℚ)) (d : Tensor3)
    (b n u : Nat) (q : ℚ)
    (hb : b < d.length) (hn : n < (d.getD b []).length) (hu : u < (rowOf d b n).length)
    (hex : ∃ w ∈ ws, w.1 = (b, n, u))
    (hval : ∀ w ∈ ws, w.1 = (b, n, u) → w.2 = q) :
    getEntry (applyWrites ws d) b n u = q := by
  induction ws generalizing d with
  | nil =>
    rcases hex with ⟨w, hw, _⟩
    simp at hw
  | cons w ws ih =>
    rw [applyWrites_cons]
    by_cases hws : ∃ w2 ∈ ws, w2.1 = (b, n, u)
    · exact ih _ (by rw [tensorSet_length]; exact hb)
        (by rw [tensorSet_row_length]; exact hn)
        (by rw [tensorSet_vec_length]; exact hu)
        hws (fun w2 hw2 => hval w2 (by simp [hw2]))
    · have hw1 : w.1 = (b, n, u) := by
        rcases hex with ⟨w2, hw2, he⟩
        rcases List.mem_cons.mp hw2 with h1 | h1
        · rw [← h1]; exact he
        · exact absurd ⟨w2, h1, he⟩ hws
      have hq : w.2 = q := hval w (by simp) hw1
      rw [applyWrites_entry_untouched ws _ b n u
        (fun w2 hw2 he => hws ⟨w2, hw2, he⟩)]
      rcases w with ⟨⟨wb, wn, wu⟩, wq⟩
      simp only [Prod.mk.injEq] at hw1
      obtain ⟨rfl, rfl, rfl⟩ := hw1
      rw [← hq]
      exact tensorSet_entry_same d _ _ _ _ hb hn hu

theorem zerosLike_getD (t : Tensor3) (b : Nat) :
    (zerosLike t).getD b [] = (t.getD b []).map (fun v => v.map (fun _ => 0)) := by
  by_cases hb : b < t.length
  · unfold zerosLike
    rw [map_getD_of_lt _ _ _ [] [] hb]
  · unfold zerosLike
    rw [List.getD_eq_default _ _ (by rw [List.length_map]; omega),
      List.getD_eq_default _ _ (by omega)]
    rfl

theorem zerosLike_length (t : Tensor3) : (zerosLike t).length = t.length := by
  simp [zerosLike]

theorem rowOf_zerosLike (t : Tensor3) (b n : Nat) :
    rowOf (zerosLike t) b n = (rowOf t b n).map (fun _ => 0) := by
  unfold rowOf
  rw [zerosLike_getD]
  by_cases hn : n < (t.getD b []).length
  · rw [map_getD_of_lt _ _ _ [] [] hn]
  · rw [List.getD_eq_default _ _ (by rw [List.length_map]; omega),
      List.getD_eq_default _ _ (by omega)]
    rfl

theorem vecAdd_map_zero (v : Vec) : vecAdd v (v.map (fun _ => 0)) = v := by
  induction v with
  | nil => rfl
  | cons a v ih =>
    simp only [List.map_cons, vecAdd, List.zipWith_cons_cons] at *
    rw [ih, add_zero]

theorem getD_zipWith_vecAdd (m1 m2 : Mat) (n : Nat) :
    (List.zipWith vecAdd m1 m2).getD n [] = vecAdd (m1.getD n []) (m2.getD n []) := by
  induction m1 generalizing m2 n with
  | nil => simp [vecAdd]
  | cons v m1 ih =>
    cases m2 with
    | nil => simp [vecAdd]
    | cons w m2 =>
      cases n with
      | zero => simp
      | succ n => simpa using ih m2 n

theorem rowOf_tensorAdd (s t : Tensor3) (b n : Nat) :
    rowOf (tensorAdd s t) b n = vecAdd (rowOf s b n) (rowOf t b n) := by
  unfold rowOf tensorAdd
  induction s generalizing t b with
  | nil => simp [vecAdd]
  | cons m1 s ih =>
    cases t with
    | nil => simp [vecAdd]
    | cons m2 t =>
      cases b with
      | zero =>
        simp only [List.zipWith_cons_cons, List.getD_cons_zero]
        exact getD_zipWith_vecAdd m1 m2 n
      | succ b =>
        simp only [List.zipWith_cons_cons, List.getD_cons_succ]
        exact ih t b

/-! ### Characterizing the write sequence of `update_utterance` -/

theorem length_flatMap_replicate (r : List Nat) (U : Nat) :
    (r.flatMap (fun val => List.replicate U val)).length = r.length * U := by
  induction r with
  | nil => simp
  | cons a r ih =>
    simp [ih, Nat.succ_mul]
    omega

theorem length_flatten_replicate {α : Type} (k : Nat) (x : List α) :
    ((List.replicate k x).flatten).length = k * x.length := by
  induction k with
  | zero => simp
  | succ k ih =>
    simp [List.replicate_succ, ih, Nat.succ_mul]
    omega

theorem zip_range_elem (urow : Vec) (p : Nat × ℚ)
    (hp : p ∈ List.zip (List.range urow.length) urow) :
    p.1 < urow.length ∧ p.2 = urow.getD p.1 0 := by
  obtain ⟨i, hi, he⟩ := List.mem_iff_getElem.mp hp
  have hlen : i < urow.length := by
    simp only [List.length_zip, List.length_range, Nat.min_self] at hi
    exact hi
  rw [List.getElem_zip] at he
  subst he
  refine ⟨by simpa using hlen, ?_⟩
  simp only [List.getElem_range]
  exact (List.getD_eq_getElem _ _ hlen).symm

theorem zip_range_mem (urow : Vec) (u : Nat) (hu : u < urow.length) :
    (u, urow.getD u 0) ∈ List.zip (List.range urow.length) urow := by
  rw [List.mem_iff_getElem]
  refine ⟨u, by simp only [List.length_zip, List.length_range, Nat.min_self]; exact hu, ?_⟩
  rw [List.getElem_zip]
  simp [List.getElem_range, List.getElem?_eq_getElem, hu]

theorem zip_replicate_range (b0 val : Nat) (urow : Vec) (g : Nat → Nat) :
    List.zip (List.zip (List.replicate urow.length b0)
        (List.zip (List.replicate urow.length val) ((List.range urow.length).map g)))
      urow
    = (List.zip (List.range urow.length) urow).map
        (fun p => ((b0, (val, g p.1)), p.2)) := by
  induction urow generalizing g with
  | nil => rfl
  | cons y urow ih =>
    simp only [List.length_cons, List.range_succ_eq_map, List.replicate_succ,
      List.map_cons, List.zip_cons_cons, List.map_map]
    rw [ih (g ∘ Nat.succ), List.zip_map_left, List.map_map]
    rfl

theorem zip_block_eq (b0 : Nat) (r : List Nat) (urow : Vec) :
    List.zip (List.zip (List.replicate (r.length * urow.length) b0)
        (List.zip (r.flatMap (fun val => List.replicate urow.length val))
          ((List.replicate r.length (List.range urow.length)).flatten)))
      ((List.replicate r.length urow).flatten)
    = r.flatMap (fun val =>
        (List.zip (List.range urow.length) urow).map (fun p => ((b0, (val, p.1)), p.2))) := by
  induction r with
  | nil =>
    simp only [List.length_nil, Nat.zero_mul, List.replicate_zero, List.flatMap_nil,
      List.flatten_nil, List.zip_nil_left, List.zip_nil_right]
  | cons val r ih =>
    have hmul : (r.length + 1) * urow.length = urow.length + r.length * urow.length := by ring
    simp only [List.length_cons, List.flatMap_cons, List.replicate_succ, List.flatten_cons]
    rw [hmul, List.replicate_add]
    rw [List.zip_append (by simp)]
    rw [List.zip_append (by simp [List.length_zip])]
    rw [List.zip_append (by simp [List.length_zip, length_flatMap_replicate])]
    rw [ih]
    congr 1
    have h := zip_replicate_range b0 val urow id
    simpa using h

theorem update_writes_eq (E U b0 : Nat) (ei : List (List Nat)) (utt : Mat)
    (hE : ∀ r ∈ ei, r.length = E) (hlen : utt.length = ei.length)
    (hU : ∀ row ∈ utt, row.length = U) :
    List.zip (List.zip
        ((List.range ei.length).flatMap (fun b => List.replicate (E * U) (b0 + b)))
        (List.zip (ei.flatten.flatMap (fun r => List.replicate U r))
          ((List.replicate (E * ei.length) (List.range U)).flatten)))
      (utt.flatMap (fun row => (List.replicate E row).flatten))
    = scatterWrites b0 ei utt := by
  induction ei generalizing b0 utt with
  | nil =>
    cases utt with
    | nil => rfl
    | cons _ _ => simp at hlen
  | cons r rest ih =>
    cases utt with
    | nil => simp at hlen
    | cons urow urest =>
      have hr : r.length = E := hE r (by simp)
      have hurow : urow.length = U := hU urow (by simp)
      subst hr
      subst hurow
      have hE2 : ∀ r2 ∈ rest, r2.length = r.length := fun r2 h2 => hE r2 (by simp [h2])
      have hU2 : ∀ row ∈ urest, row.length = urow.length := fun w h2 => hU w (by simp [h2])
      have hlen2 : urest.length = rest.length := by simpa using hlen
      have hbatch :
          (List.range (r :: rest).length).flatMap
              (fun b => List.replicate (r.length * urow.length) (b0 + b)) =
            List.replicate (r.length * urow.length) b0 ++
              (List.range rest.length).flatMap
                (fun b => List.replicate (r.length * urow.length) (b0 + 1 + b)) := by
        rw [List.length_cons, List.range_succ_eq_map, List.flatMap_cons, List.flatMap_map]
        have hfun : (fun a : Nat => List.replicate (r.length * urow.length) (b0 + a.succ)) =
            (fun b : Nat => List.replicate (r.length * urow.length) (b0 + 1 + b)) := by
          funext a
          congr 1
          omega
        rw [hfun]
        rfl
      have hnode :
          ((r :: rest).flatten.flatMap (fun r2 => List.replicate urow.length r2)) =
            (r.flatMap (fun val => List.replicate urow.length val)) ++
              (rest.flatten.flatMap (fun r2 => List.replicate urow.length r2)) := by
        simp [List.flatMap_append]
      have hmul : r.length * (r :: rest).length =
          r.length + r.length * rest.length := by
        simp [Nat.mul_succ]
        omega
      have hutti :
          (List.replicate (r.length * (r :: rest).length) (List.range urow.length)).flatten =
            (List.replicate r.length (List.range urow.length)).flatten ++
              (List.replicate (r.length * rest.length) (List.range urow.length)).flatten := by
        rw [hmul, List.replicate_add, List.flatten_append]
      have hvals :
          ((urow :: urest).flatMap (fun row => (List.replicate r.length row).flatten)) =
            (List.replicate r.length urow).flatten ++
              (urest.flatMap (fun row => (List.replicate r.length row).flatten)) := by
        simp
      rw [hbatch, hnode, hutti, hvals]
      rw [List.zip_append
        (by simp only [length_flatMap_replicate, length_flatten_replicate, List.length_range])]
      rw [List.zip_append
        (by simp only [List.length_replicate, List.length_zip, length_flatMap_replicate,
          length_flatten_replicate, List.length_range, Nat.min_self])]
      rw [List.zip_append
        (by simp only [List.length_zip, List.length_replicate, length_flatMap_replicate,
          length_flatten_replicate, List.length_range, Nat.min_self])]
      rw [zip_block_eq, ih (b0 + 1) urest hE2 hlen2 hU2]
      rfl

theorem scatterWrites_mem (b0 : Nat) (ei : List (List Nat)) (utt : Mat)
    (w : (Nat × Nat × Nat) × ℚ) (hw : w ∈ scatterWrites b0 ei utt) :
    ∃ j, j < ei.length ∧ w.1.1 = b0 + j ∧ w.1.2.1 ∈ ei.getD j [] ∧
      w.1.2.2 < (utt.getD j []).length ∧ w.2 = (utt.getD j []).getD w.1.2.2 0 := by
  induction ei generalizing b0 utt with
  | nil => simp [scatterWrites] at hw
  | cons r rest ih =>
    cases utt with
    | nil => simp [scatterWrites] at hw
    | cons urow urest =>
      simp only [scatterWrites] at hw
      rcases List.mem_append.mp hw with h | h
      · rcases List.mem_flatMap.mp h with ⟨val, hval, hmem⟩
        rcases List.mem_map.mp hmem with ⟨p, hp, rfl⟩
        have hpe := zip_range_elem urow p hp
        refine ⟨0, by simp, by simp, ?_, ?_, ?_⟩
        · simp only [List.getD_cons_zero]
          exact hval
        · simp only [List.getD_cons_zero]
          exact hpe.1
        · simp only [List.getD_cons_zero]
          exact hpe.2
      · rcases ih (b0 + 1) urest h with ⟨j, hj, h1, h2, h3, h4⟩
        refine ⟨j + 1, by simp only [List.length_cons]; omega, by omega,
          by simpa using h2, by simpa using h3, by simpa using h4⟩

theorem scatterWrites_mem_of (b0 : Nat) (ei : List (List Nat)) (utt : Mat)
    (j : Nat) (hj : j < ei.length) (val : Nat) (hval : val ∈ ei.getD j [])
    (u : Nat) (hu : u < (utt.getD j []).length) :
    ((b0 + j, (val, u)), (utt.getD j []).getD u 0) ∈ scatterWrites b0 ei utt := by
  induction ei generalizing b0 utt j with
  | nil => simp at hj
  | cons r rest ih =>
    cases utt with
    | nil => simp at hu
    | cons urow urest =>
      simp only [scatterWrites]
      cases j with
      | zero =>
        apply List.mem_append_left
        apply List.mem_flatMap.mpr
        refine ⟨val, by simpa using hval, ?_⟩
        apply List.mem_map.mpr
        refine ⟨(u, urow.getD u 0), zip_range_mem urow u (by simpa using hu), ?_⟩
        simp
      | succ j =>
        apply List.mem_append_right
        have h2 := ih (b0 + 1) urest j (by simpa using hj) (by simpa using hval)
          (by simpa using hu)
        have harr : b0 + 1 + j = b0 + (j + 1) := by omega
        rw [harr] at h2
        simpa using h2

/-- Under the placeholder shape contract (`entity_indices : (batch, E)`,
`utterance : (batch, U)`), the update is the current cache plus the densified
write sequence `scatterWrites`. -/
theorem update_utterance_eq_writes
    (g : GraphEmbedder) (ei : List (List Nat)) (utt : Mat) (curr : Tensor3)
    (hB : ei.length = g.config.batch_size)
    (hE : ∀ r ∈ ei, r.length = g.config.entity_cache_size)
    (hUB : utt.length = ei.length)
    (hU : ∀ row ∈ utt, row.length = g.config.utterance_size) :
    g.update_utterance ei utt curr =
      tensorAdd curr (applyWrites (scatterWrites 0 ei utt) (zerosLike curr)) := by
  have hw := update_writes_eq g.config.entity_cache_size g.config.utterance_size 0
    ei utt hE hUB hU
  simp only [Nat.zero_add] at hw
  rw [hB] at hw
  simp only [GraphEmbedder.update_utterance, sparse_to_dense]
  rw [hw]

/-- C6: a cache row whose index does not occur in its batch element's
`entity_indices` is returned unchanged by `update_utterance`, however many
padding slots (or any other slots) the index list contains. -/
theorem update_padding_frame
    (g : GraphEmbedder) (ei : List (List Nat)) (utt : Mat) (curr : Tensor3)
    (hB : ei.length = g.config.batch_size)
    (hE : ∀ r ∈ ei, r.length = g.config.entity_cache_size)
    (hUB : utt.length = ei.length)
    (hU : ∀ row ∈ utt, row.length = g.config.utterance_size)
    (b n : Nat) (hnot : n ∉ ei.getD b []) :
    rowOf (g.update_utterance ei utt curr) b n = rowOf curr b n := by
  have hno : ∀ w ∈ scatterWrites 0 ei utt, w.1.1 ≠ b ∨ w.1.2.1 ≠ n := by
    intro w hw
    rcases scatterWrites_mem 0 ei utt w hw with ⟨j, _, h1, h2, _, _⟩
    by_cases hjb : j = b
    · subst hjb
      right
      intro he
      exact hnot (he ▸ h2)
    · left
      omega
  rw [update_utterance_eq_writes g ei utt curr hB hE hUB hU, rowOf_tensorAdd,
    applyWrites_row_untouched _ _ b n hno, rowOf_zerosLike]
  exact vecAdd_map_zero _

theorem update_padding_frame_witness :
    rowOf (gW.update_utterance [[1, 1]] [[1]] [[[5], [7]]]) 0 0 =
      rowOf [[[(5 : ℚ)], [7]]] 0 0 :=
  update_padding_frame gW [[1, 1]] [[1]] [[[5], [7]]] rfl (by decide) rfl (by decide)
    0 0 (by decide)

set_option maxRecDepth 4000 in
/-- C5 counterexample: with `entity_indices = [0, 0]` naming cache row 0
twice, utterance vector `[1]` and old row `[5]`, the returned row is `[6]`,
not the `[5 + 2·1] = [7]` the claim demands: `sparse_to_dense` assigns rather
than accumulates, so the colliding entries collapse to one contribution. -/
theorem update_collision_counterexample :
    gW.update_utterance [[0, 0]] [[1]] [[[5], [7]]] = [[[6], [7]]] ∧
    ([[[(6 : ℚ)], [7]]] : Tensor3) ≠ [[[5 + 2 * 1], [7]]] := by
  constructor
  · have hrep : ∀ {α : Type} (a : α), List.replicate 2 a = [a, a] := fun a => rfl
    norm_num [GraphEmbedder.update_utterance, sparse_to_dense, applyWrites, zerosLike,
      tensorSet, tensorAdd, vecAdd, gW, cW, List.range_succ, List.foldl_cons,
      List.zip_cons_cons, List.set_cons_zero, List.set_cons_succ, hrep,
      List.getElem?_cons_zero, List.getElem?_cons_succ]
  · norm_num

/-- C5 amended: `update_utterance` adds the utterance vector exactly ONCE to
every cache row named by `entity_indices`, regardless of how many slots name
it: colliding slots collapse to a single contribution (the dense update is
built by assignment, and all writes to one cell carry the same value), rather
than accumulating per slot. -/
theorem update_named_row_once
    (g : GraphEmbedder) (ei : List (List Nat)) (utt : Mat) (curr : Tensor3)
    (hB : ei.length = g.config.batch_size)
    (hE : ∀ r ∈ ei, r.length = g.config.entity_cache_size)
    (hUB : utt.length = ei.length)
    (hU : ∀ row ∈ utt, row.length = g.config.utterance_size)
    (b n : Nat) (hb : b < ei.length) (hmem : n ∈ ei.getD b [])
    (hbc : b < curr.length) (hnc : n < (curr.getD b []).length)
    (hrow : (rowOf curr b n).length = (utt.getD b []).length) :
    rowOf (g.update_utterance ei utt curr) b n =
      vecAdd (rowOf curr b n) (utt.getD b []) := by
  rw [update_utterance_eq_writes g ei utt curr hB hE hUB hU, rowOf_tensorAdd]
  congr 1
  apply List.ext_getElem
  · rw [applyWrites_vec_length, rowOf_zerosLike, List.length_map]
    exact hrow
  · intro u hu1 hu2
    have hzb : b < (zerosLike curr).length := by
      rw [zerosLike_length]
      exact hbc
    have hzn : n < ((zerosLike curr).getD b []).length := by
      rw [zerosLike_getD, List.length_map]
      exact hnc
    have hzu : u < (rowOf (zerosLike curr) b n).length := by
      rw [rowOf_zerosLike, List.length_map]
      omega
    have hexist : ∃ w ∈ scatterWrites 0 ei utt, w.1 = (b, n, u) := by
      refine ⟨((0 + b, (n, u)), (utt.getD b []).getD u 0),
        scatterWrites_mem_of 0 ei utt b hb n hmem u hu2, ?_⟩
      simp
    have hval : ∀ w ∈ scatterWrites 0 ei utt, w.1 = (b, n, u) →
        w.2 = (utt.getD b []).getD u 0 := by
      intro w hw he
      rcases scatterWrites_mem 0 ei utt w hw with ⟨j, _, h1, _, _, h4⟩
      have hb2 : w.1.1 = b := by rw [he]
      have hu2b : w.1.2.2 = u := by rw [he]
      have hjb : j = b := by omega
      subst hjb
      rw [h4, hu2b]
    have hlast := applyWrites_entry_last (scatterWrites 0 ei utt) (zerosLike curr)
      b n u ((utt.getD b []).getD u 0) hzb hzn hzu hexist hval
    unfold getEntry at hlast
    calc (rowOf (applyWrites (scatterWrites 0 ei utt) (zerosLike curr)) b n)[u]
        = (rowOf (applyWrites (scatterWrites 0 ei utt) (zerosLike curr)) b n).getD u 0 :=
          (List.getD_eq_getElem _ _ hu1).symm
      _ = (utt.getD b []).getD u 0 := hlast
      _ = (utt.getD b [])[u] := List.getD_eq_getElem _ _ hu2

theorem update_named_row_once_witness :
    rowOf (gW.update_utterance [[0, 0]] [[1]] [[[5], [7]]]) 0 0 =
      vecAdd (rowOf [[[(5 : ℚ)], [7]]] 0 0) ([[(1 : ℚ)]].getD 0 []) :=
  update_named_row_once gW [[0, 0]] [[1]] [[[5], [7]]] rfl (by decide) rfl (by decide)
    0 0 (by decide) (by decide) (by decide) (by decide) (by decide)

end Cocoa
